import Mathlib

/-!
# squad-maker `utils/crypto`: AES-256-GCM sealing with a lazily loaded process-wide key

A shallow embedding of `utils/crypto/aes.go`. The package keeps one key in the
package-level variable `key [32]byte`; `Encrypt` and `Decrypt` load it on first use through
`initKey` and then call Go's `crypto/aes` and `crypto/cipher`.

* The key is threaded through the operations as explicit state: every operation returns
  its result together with the new value of `key`.
* The secret provider `env.GetSecretKey` and the random source `rand.Reader` are
  parameters of the operations.
* The standard library calls are embedded as the algorithms they implement: the AES block
  cipher of FIPS-197 and the Galois/Counter mode of NIST SP 800-38D, with the argument
  checks of Go's `Seal` and `Open` (nonce length, message size, tag comparison). All
  definitions are executable; the test vectors of both standards evaluate as published.
* Bytes are `Fin 256`, byte strings are lists, a Go `error` is its message, and a panic is
  an outcome of its own.
-/

/-- A Go `byte`. -/
abbrev Byte := Fin 256

/-- A Go `error`, identified by its message. -/
abbrev Error := String

/-- Outcome of a Go call that returns `(value, error)` and may also panic. -/
inductive Result (α : Type) where
  | ok (v : α)
  | error (e : Error)
  | panic (msg : String)
deriving DecidableEq

namespace aes

/-- The AES substitution box (FIPS-197, figure 7), as a table. -/
def sboxTable : List Byte :=
  [99, 124, 119, 123, 242, 107, 111, 197, 48, 1, 103, 43, 254, 215, 171, 118,
   202, 130, 201, 125, 250, 89, 71, 240, 173, 212, 162, 175, 156, 164, 114, 192,
   183, 253, 147, 38, 54, 63, 247, 204, 52, 165, 229, 241, 113, 216, 49, 21,
   4, 199, 35, 195, 24, 150, 5, 154, 7, 18, 128, 226, 235, 39, 178, 117,
   9, 131, 44, 26, 27, 110, 90, 160, 82, 59, 214, 179, 41, 227, 47, 132,
   83, 209, 0, 237, 32, 252, 177, 91, 106, 203, 190, 57, 74, 76, 88, 207,
   208, 239, 170, 251, 67, 77, 51, 133, 69, 249, 2, 127, 80, 60, 159, 168,
   81, 163, 64, 143, 146, 157, 56, 245, 188, 182, 218, 33, 16, 255, 243, 210,
   205, 12, 19, 236, 95, 151, 68, 23, 196, 167, 126, 61, 100, 93, 25, 115,
   96, 129, 79, 220, 34, 42, 144, 136, 70, 238, 184, 20, 222, 94, 11, 219,
   224, 50, 58, 10, 73, 6, 36, 92, 194, 211, 172, 98, 145, 149, 228, 121,
   231, 200, 55, 109, 141, 213, 78, 169, 108, 86, 244, 234, 101, 122, 174, 8,
   186, 120, 37, 46, 28, 166, 180, 198, 232, 221, 116, 31, 75, 189, 139, 138,
   112, 62, 181, 102, 72, 3, 246, 14, 97, 53, 87, 185, 134, 193, 29, 158,
   225, 248, 152, 17, 105, 217, 142, 148, 155, 30, 135, 233, 206, 85, 40, 223,
   140, 161, 137, 13, 191, 230, 66, 104, 65, 153, 45, 15, 176, 84, 187, 22]

/-- S-box lookup. -/
def sbox (b : Byte) : Byte := sboxTable.getD b.val 0

/-- Multiplication by x in GF(2^8) modulo x^8 + x^4 + x^3 + x + 1. -/
def xtime (b : Byte) : Byte :=
  if b.val < 128 then Fin.ofNat (2 * b.val) else Fin.ofNat ((2 * b.val) ^^^ 283)

/-- Bytewise exclusive or of two byte strings, as long as the shorter one. -/
def xorBytes (a b : List Byte) : List Byte := List.zipWith (fun x y => x ^^^ y) a b

/-- The round constant word for round `i` (1-based): `[x^(i-1), 0, 0, 0]`. -/
def rcon (i : Nat) : List Byte := [Nat.iterate xtime (i - 1) 1, 0, 0, 0]

/-- SubWord of the key schedule. -/
def subWord (w : List Byte) : List Byte := w.map sbox

/-- RotWord of the key schedule: `[a0,a1,a2,a3]` becomes `[a1,a2,a3,a0]`. -/
def rotWord (w : List Byte) : List Byte := w.drop 1 ++ w.take 1

/-- The first `nk` words of the schedule are the key itself. -/
def keyWords : Nat → List Byte → List (List Byte)
  | 0, _ => []
  | n + 1, key => key.take 4 :: keyWords n (key.drop 4)

/-- Words `i, i+1, ...` of the key schedule (FIPS-197, section 5.2), `todo` of them. -/
def expandLoop (nk : Nat) : Nat → Nat → List (List Byte) → List (List Byte)
  | 0, _, w => w
  | todo + 1, i, w =>
    let prev := w.getD (i - 1) []
    let temp :=
      if i % nk = 0 then xorBytes (subWord (rotWord prev)) (rcon (i / nk))
      else if 6 < nk ∧ i % nk = 4 then subWord prev
      else prev
    expandLoop nk todo (i + 1) (w ++ [xorBytes (w.getD (i - nk) []) temp])

/-- Groups the schedule words four by four into 16-byte round keys. -/
def roundKeys : Nat → List (List Byte) → List (List Byte)
  | 0, _ => []
  | n + 1, w => (w.take 4).flatten :: roundKeys n (w.drop 4)

/-- The AES key schedule: `nr + 1` round keys, where `nr = nk + 6`. -/
def expandKey (key : List Byte) : List (List Byte) :=
  let nk := key.length / 4
  let nr := nk + 6
  roundKeys (nr + 1) (expandLoop nk (4 * (nr + 1) - nk) nk (keyWords nk key))

/-- AddRoundKey; the state always has 16 bytes. -/
def addRoundKey (s rk : List Byte) : List Byte :=
  (List.range 16).map fun i => s.getD i 0 ^^^ rk.getD i 0

/-- SubBytes. -/
def subBytes (s : List Byte) : List Byte := s.map sbox

/-- ShiftRows on the column-major state: row `r` rotates left by `r`. -/
def shiftRows (s : List Byte) : List Byte :=
  (List.range 16).map fun i => s.getD (i % 4 + 4 * ((i / 4 + i % 4) % 4)) 0

/-- MixColumns on one column. -/
def mixColumn (a0 a1 a2 a3 : Byte) : List Byte :=
  [xtime a0 ^^^ (xtime a1 ^^^ a1) ^^^ a2 ^^^ a3,
   a0 ^^^ xtime a1 ^^^ (xtime a2 ^^^ a2) ^^^ a3,
   a0 ^^^ a1 ^^^ xtime a2 ^^^ (xtime a3 ^^^ a3),
   (xtime a0 ^^^ a0) ^^^ a1 ^^^ a2 ^^^ xtime a3]

/-- MixColumns. -/
def mixColumns (s : List Byte) : List Byte :=
  (List.range 4).flatMap fun c =>
    mixColumn (s.getD (4 * c) 0) (s.getD (4 * c + 1) 0) (s.getD (4 * c + 2) 0)
      (s.getD (4 * c + 3) 0)

/-- The middle rounds: SubBytes, ShiftRows, MixColumns, AddRoundKey, once per round key. -/
def rounds (s : List Byte) : List (List Byte) → List Byte
  | [] => s
  | rk :: rest => rounds (addRoundKey (mixColumns (shiftRows (subBytes s))) rk) rest

/-- A keyed AES block cipher, as returned by `aes.NewCipher`: its round keys. -/
structure Block where
  rks : List (List Byte)

/-- Go's `aes.NewCipher`: keys of 16, 24 or 32 bytes select AES-128, AES-192 or AES-256;
any other length is a `KeySizeError`. -/
def NewCipher (key : List Byte) : Except Error Block :=
  if key.length = 16 ∨ key.length = 24 ∨ key.length = 32 then .ok ⟨expandKey key⟩
  else .error ("crypto/aes: invalid key size " ++ toString key.length)

/-- Go's `Block.Encrypt`: the AES cipher of FIPS-197, section 5.1, on one 16-byte block. -/
def Block.Encrypt (c : Block) (src : List Byte) : List Byte :=
  let nr := c.rks.length - 1
  let s := addRoundKey src (c.rks.getD 0 [])
  let s := rounds s ((c.rks.drop 1).take (nr - 1))
  addRoundKey (shiftRows (subBytes s)) (c.rks.getD nr [])

end aes

namespace cipher

/-- Big-endian value of a byte string. -/
def beToNat (bs : List Byte) : Nat := bs.foldl (fun acc b => acc * 256 + b.val) 0

/-- The `len` low-order bytes of `v`, big-endian. -/
def natToBE : Nat → Nat → List Byte
  | 0, _ => []
  | n + 1, v => Fin.ofNat (v / 256 ^ n) :: natToBE n v

/-- The reduction constant of GHASH: `11100001` followed by 120 zero bits. -/
def gcmR : Nat := 225 * 2 ^ 120

/-- Multiplication in GF(2^128), SP 800-38D algorithm 1: bit 0 of a block is its most
significant bit; `todo` bits of `x` are still to be consumed. -/
def mulLoop (x : Nat) : Nat → Nat → Nat → Nat
  | 0, z, _ => z
  | todo + 1, z, v =>
    mulLoop x todo (if x.testBit todo then z ^^^ v else z)
      (if v % 2 = 0 then v / 2 else (v / 2) ^^^ gcmR)

/-- The product `x · y` of two 128-bit blocks in the GHASH field. -/
def gcmMul (x y : Nat) : Nat := mulLoop x 128 0 y

/-- A GCM instance, as returned by `cipher.NewGCM`: the block cipher and the hash subkey
`H = E_K(0^128)`, with the standard nonce size 12 and tag size 16. -/
structure GCM where
  cipher : aes.Block
  h : Nat

def gcmBlockSize : Nat := 16

def gcmTagSize : Nat := 16

def gcmStandardNonceSize : Nat := 12

/-- Go's `cipher.NewGCM`; every `aes.Block` has the required block size of 16 bytes. -/
def NewGCM (block : aes.Block) : Except Error GCM :=
  .ok ⟨block, beToNat (block.Encrypt (List.replicate gcmBlockSize 0))⟩

def GCM.NonceSize (_ : GCM) : Nat := gcmStandardNonceSize

def GCM.Overhead (_ : GCM) : Nat := gcmTagSize

/-- One block of at most 16 bytes, zero-padded on the right, as a field element. -/
def padBlock (bs : List Byte) : Nat :=
  beToNat (bs ++ List.replicate (gcmBlockSize - bs.length) 0)

/-- GHASH over `blocks` blocks of `data`: `y := (y xor block) · H` for each. -/
def updateBlocks (h : Nat) : Nat → Nat → List Byte → Nat
  | 0, y, _ => y
  | blocks + 1, y, data =>
    updateBlocks h blocks (gcmMul (y ^^^ padBlock (data.take gcmBlockSize)) h)
      (data.drop gcmBlockSize)

/-- Go's `gcm.update`: extends the hash `y` with `data`, the last block zero-padded. -/
def GCM.update (g : GCM) (y : Nat) (data : List Byte) : Nat :=
  updateBlocks g.h ((data.length + 15) / 16) y data

/-- Go's `gcmInc32`: the last four bytes of the counter block, big-endian, plus one
modulo 2^32. -/
def gcmInc32 (counter : List Byte) : List Byte :=
  counter.take 12 ++ natToBE 4 ((beToNat (counter.drop 12) + 1) % 2 ^ 32)

/-- Go's `gcm.deriveCounter`: the initial counter block for a nonce. -/
def GCM.deriveCounter (g : GCM) (nonce : List Byte) : List Byte :=
  if nonce.length = gcmStandardNonceSize then nonce ++ [0, 0, 0, 1]
  else
    let y := g.update 0 nonce
    natToBE 16 (gcmMul (y ^^^ (nonce.length * 8 % 2 ^ 64)) g.h)

/-- Counter mode over `blocks` blocks: each block of the input is xored with the
encryption of the counter, which is then incremented. -/
def counterBlocks (c : aes.Block) : Nat → List Byte → List Byte → List Byte
  | 0, _, _ => []
  | blocks + 1, inp, counter =>
    aes.xorBytes (inp.take gcmBlockSize) (c.Encrypt counter)
      ++ counterBlocks c blocks (inp.drop gcmBlockSize) (gcmInc32 counter)

/-- Go's `gcm.counterCrypt`. -/
def GCM.counterCrypt (g : GCM) (inp : List Byte) (counter : List Byte) : List Byte :=
  counterBlocks g.cipher ((inp.length + 15) / 16) inp counter

/-- Go's `gcm.auth`: the GHASH of the associated data and the ciphertext with their bit
lengths, masked with `tagMask`. -/
def GCM.auth (g : GCM) (ciphertext additionalData tagMask : List Byte) : List Byte :=
  let y := g.update 0 additionalData
  let y := g.update y ciphertext
  let y := y ^^^ ((additionalData.length * 8 % 2 ^ 64) * 2 ^ 64
    + ciphertext.length * 8 % 2 ^ 64)
  aes.xorBytes (natToBE 16 (gcmMul y g.h)) tagMask

/-- The largest plaintext GCM accepts: `(2^32 - 2)` blocks. -/
def gcmMaxPlaintext : Nat := (2 ^ 32 - 2) * gcmBlockSize

/-- The error of a failed `Open`. -/
def errOpen : Error := "cipher: message authentication failed"

/-- Go's `gcm.Seal(dst, nonce, plaintext, data)`: appends ciphertext and tag to `dst`. -/
def GCM.Seal (g : GCM) (dst nonce plaintext data : List Byte) : Result (List Byte) :=
  if nonce.length ≠ g.NonceSize then
    .panic "crypto/cipher: incorrect nonce length given to GCM"
  else if gcmMaxPlaintext < plaintext.length then
    .panic "crypto/cipher: message too large for GCM"
  else
    let counter := g.deriveCounter nonce
    let tagMask := g.cipher.Encrypt counter
    let out := g.counterCrypt plaintext (gcmInc32 counter)
    let tag := g.auth out data tagMask
    .ok (dst ++ out ++ tag)

/-- Go's `gcm.Open(dst, nonce, ciphertext, data)`: checks the tag and, when it matches,
appends the plaintext to `dst`. -/
def GCM.Open (g : GCM) (dst nonce ciphertext data : List Byte) : Result (List Byte) :=
  if nonce.length ≠ g.NonceSize then
    .panic "crypto/cipher: incorrect nonce length given to GCM"
  else if ciphertext.length < gcmTagSize then .error errOpen
  else if gcmMaxPlaintext + gcmTagSize < ciphertext.length then .error errOpen
  else
    let tag := ciphertext.drop (ciphertext.length - gcmTagSize)
    let ciphertext := ciphertext.take (ciphertext.length - gcmTagSize)
    let counter := g.deriveCounter nonce
    let tagMask := g.cipher.Encrypt counter
    let expectedTag := g.auth ciphertext data tagMask
    if expectedTag ≠ tag then .error errOpen
    else .ok (dst ++ g.counterCrypt ciphertext (gcmInc32 counter))

end cipher

namespace io

/-- An `io.Reader`, reduced to what reading from it yields: the bytes it delivers and
the error it returns once they are used up (`"EOF"` for a plain end of stream). -/
structure Reader where
  data : List Byte
  err : Error

/-- Go's `io.ReadFull(r, buf)` for a buffer of `n` bytes: exactly `n` bytes, or an error.
The error is `ErrUnexpectedEOF` when the stream ended after some but not all bytes. -/
def ReadFull (r : Reader) (n : Nat) : Except Error (List Byte) :=
  if n ≤ r.data.length then .ok (r.data.take n)
  else if 0 < r.data.length ∧ r.err = "EOF" then .error "unexpected EOF"
  else .error r.err

end io

namespace crypto

/-- The type of the package-level `var key [32]byte`. -/
abbrev Key := { bs : List Byte // bs.length = 32 }

/-- The value of `key` at process start: Go's zero value of `[32]byte`. -/
def zeroKey : Key := ⟨List.replicate 32 0, by simp⟩

/-- Go's `reflect.ValueOf(key).IsZero()` on a byte array: every element is zero. -/
def IsZero (key : Key) : Bool := key.val.all fun b => b == 0

/-- Go's builtin `copy(dst, src)`: the first `min (len dst) (len src)` elements of `dst`
are overwritten, the rest are kept. -/
def copy (dst src : List Byte) : List Byte := src.take dst.length ++ dst.drop src.length

/-- The secret provider `env.GetSecretKey` of package `squad-maker/utils/env`, a parameter
of the model: a lookup by name that returns bytes or an error. -/
abbrev SecretProvider := String → Except Error (List Byte)

/-- The function `initKey` (aes.go, lines 103-113): returns the error (`none` for `nil`)
and the new value of `key`. -/
def initKey (GetSecretKey : SecretProvider) (key : Key) : Option Error × Key :=
  match GetSecretKey "AES_KEY" with
  | .error err => (some err, key)
  | .ok b =>
    if b.length ≠ 32 then (some "key is not 32 bytes", key)
    else (none, ⟨copy key.val b, by have := key.property; simp [copy]; omega⟩)

/-- The guard that opens both `Encrypt` and `Decrypt` (aes.go, lines 45-50 and 75-80):
`initKey` runs only while `key` is all zero. Returns the error and the new `key`. -/
def ensureKey (GetSecretKey : SecretProvider) (key : Key) : Option Error × Key :=
  if IsZero key then initKey GetSecretKey key else (none, key)

/-- The function `Encrypt` (aes.go, lines 44-69): returns the result and the new value of
`key`. The nonce is read from `randReader`, which stands for `rand.Reader`. -/
def Encrypt (GetSecretKey : SecretProvider) (randReader : io.Reader) (key : Key)
    (plaintext : List Byte) : Result (List Byte) × Key :=
  let (err, key) := ensureKey GetSecretKey key
  match err with
  | some err => (.error err, key)
  | none =>
    match aes.NewCipher key.val with
    | .error err => (.error err, key)
    | .ok block =>
      match cipher.NewGCM block with
      | .error err => (.error err, key)
      | .ok gcm =>
        match io.ReadFull randReader gcm.NonceSize with
        | .error err => (.error err, key)
        | .ok nonce => (gcm.Seal nonce nonce plaintext [], key)

/-- The function `Decrypt` (aes.go, lines 74-101): returns the result and the new value of
`key`. -/
def Decrypt (GetSecretKey : SecretProvider) (key : Key) (ciphertext : List Byte) :
    Result (List Byte) × Key :=
  let (err, key) := ensureKey GetSecretKey key
  match err with
  | some err => (.error err, key)
  | none =>
    match aes.NewCipher key.val with
    | .error err => (.error err, key)
    | .ok block =>
      match cipher.NewGCM block with
      | .error err => (.error err, key)
      | .ok gcm =>
        if ciphertext.length < gcm.NonceSize then (.error "malformed ciphertext", key)
        else
          (gcm.Open [] (ciphertext.take gcm.NonceSize) (ciphertext.drop gcm.NonceSize) [],
            key)

/-! ## Concrete inputs -/

/-- The key of 32 bytes `0x01`. -/
def onesKey : Key := ⟨List.replicate 32 1, by decide⟩

/-- The plaintext "hello". -/
def hello : List Byte := [104, 101, 108, 108, 111]

/-- A secret provider whose lookups fail. -/
def failingProvider : SecretProvider := fun _ => .error "secret not found"

/-- A secret provider that holds the bytes `b` under the name "AES_KEY". -/
def fixedProvider (b : List Byte) : SecretProvider :=
  fun name => if name = "AES_KEY" then .ok b else .error "secret not found"

/-- A random source that yields the bytes `00 01 .. 0b` and then ends. -/
def countingReader : io.Reader := ⟨[0, 1, 2, 3, 4, 5, 6, 7, 8, 9, 10, 11], "EOF"⟩

/-- The sealed "hello" under `onesKey` with the nonce `00 01 .. 0b`. -/
def helloSealed : List Byte :=
  [0, 1, 2, 3, 4, 5, 6, 7, 8, 9, 10, 11, 211, 195, 249, 74, 79, 132, 31, 9, 43, 137, 3, 4,
    133, 224, 93, 85, 87, 199, 68, 53, 217]

/-- An input of 5 bytes. -/
def fiveBytes : List Byte := [1, 2, 3, 4, 5]

/-- The sealed "hello" under the all-zero key with the nonce `00 01 .. 0b`. -/
def zeroSealed : List Byte :=
  [0, 1, 2, 3, 4, 5, 6, 7, 8, 9, 10, 11, 224, 174, 95, 62, 111, 192, 224, 159, 201, 175, 0,
    70, 145, 33, 144, 122, 198, 36, 110, 220, 151]

/-- The sealed empty plaintext under `onesKey` with the nonce `00 01 .. 0b`. -/
def emptySealed : List Byte :=
  [0, 1, 2, 3, 4, 5, 6, 7, 8, 9, 10, 11, 22, 22, 2, 254, 99, 164, 118, 163, 34, 219, 248,
    182, 157, 97, 85, 217]

/-- The bytes of `helloSealed` with the last byte xored with `0x01`. -/
def helloTampered : List Byte :=
  [0, 1, 2, 3, 4, 5, 6, 7, 8, 9, 10, 11, 211, 195, 249, 74, 79, 132, 31, 9, 43, 137, 3, 4,
    133, 224, 93, 85, 87, 199, 68, 53, 216]

/-- Flips bit `j` of byte `i`. -/
def flipBit (c : List Byte) (i j : Nat) : List Byte :=
  c.set i (c.getD i 0 ^^^ Fin.ofNat (2 ^ j))

end crypto

/-! ## Published test vectors -/

namespace aes

/-- The AES-256 example of FIPS-197, appendix C.3: the key. -/
def exampleKey : List Byte :=
  [0, 1, 2, 3, 4, 5, 6, 7, 8, 9, 10, 11, 12, 13, 14, 15, 16, 17, 18, 19, 20, 21, 22,
    23, 24, 25, 26, 27, 28, 29, 30, 31]

/-- The AES-256 example of FIPS-197, appendix C.3: the plaintext block. -/
def exampleBlock : List Byte :=
  [0, 17, 34, 51, 68, 85, 102, 119, 136, 153, 170, 187, 204, 221, 238, 255]

/-- The AES-256 example of FIPS-197, appendix C.3: the ciphertext block. -/
def exampleOutput : List Byte :=
  [142, 162, 183, 202, 81, 103, 69, 191, 234, 252, 73, 144, 75, 73, 96, 137]

end aes

namespace cipher

/-- Test case 16 of the GCM specification (AES-256, 96-bit IV, associated data, a last
block of 12 bytes): the key. -/
def testKey : List Byte :=
  [254, 255, 233, 146, 134, 101, 115, 28, 109, 106, 143, 148, 103, 48, 131, 8, 254,
    255, 233, 146, 134, 101, 115, 28, 109, 106, 143, 148, 103, 48, 131, 8]

/-- Test case 16: the IV. -/
def testNonce : List Byte :=
  [202, 254, 186, 190, 250, 206, 219, 173, 222, 202, 248, 136]

/-- Test case 16: the plaintext, 60 bytes. -/
def testPlaintext : List Byte :=
  [217, 49, 50, 37, 248, 132, 6, 229, 165, 89, 9, 197, 175, 245, 38, 154, 134, 167,
    169, 83, 21, 52, 247, 218, 46, 76, 48, 61, 138, 49, 138, 114, 28, 60, 12, 149, 149,
    104, 9, 83, 47, 207, 14, 36, 73, 166, 181, 37, 177, 106, 237, 245, 170, 13, 230,
    87, 186, 99, 123, 57]

/-- Test case 16: the associated data, 20 bytes. -/
def testData : List Byte :=
  [254, 237, 250, 206, 222, 173, 190, 239, 254, 237, 250, 206, 222, 173, 190, 239,
    171, 173, 218, 210]

/-- Test case 16: the ciphertext followed by the tag. -/
def testSealed : List Byte :=
  [82, 45, 193, 240, 153, 86, 125, 7, 244, 127, 55, 163, 42, 132, 66, 125, 100, 58,
    140, 220, 191, 229, 192, 201, 117, 152, 162, 189, 37, 85, 209, 170, 140, 176, 142,
    72, 89, 13, 187, 61, 167, 176, 139, 16, 86, 130, 136, 56, 197, 246, 30, 99, 147,
    186, 122, 10, 188, 201, 246, 98, 118, 252, 110, 206, 15, 78, 23, 104, 205, 223,
    136, 83, 187, 45, 85, 27]

end cipher

/-! ## The embedding reproduces the published test vectors -/

namespace aes

set_option maxRecDepth 100000 in
/-- The block cipher reproduces the AES-256 example of FIPS-197, appendix C.3. -/
theorem Encrypt_known_answer :
    ∃ c, NewCipher exampleKey = .ok c ∧ c.Encrypt exampleBlock = exampleOutput :=
  ⟨⟨expandKey exampleKey⟩, by simp [NewCipher, exampleKey], by decide⟩

end aes

namespace cipher

set_option maxRecDepth 100000 in
/-- The GCM embedding reproduces test case 16 of the GCM specification, and `Open`
accepts it. -/
theorem Seal_known_answer :
    ∃ c g, aes.NewCipher testKey = .ok c ∧ NewGCM c = .ok g ∧
      g.Seal [] testNonce testPlaintext testData = .ok testSealed ∧
      g.Open [] testNonce testSealed testData = .ok testPlaintext :=
  ⟨⟨aes.expandKey testKey⟩, _, by simp [aes.NewCipher, testKey], rfl, by decide, by decide⟩

end cipher

/-! ## Bytes and the block cipher -/

theorem byte_xor_cancel (a b : Byte) : (a ^^^ b) ^^^ b = a := by
  apply Fin.ext
  have ha := a.isLt
  have hb := b.isLt
  have h1 : a.val ^^^ b.val < 256 := Nat.xor_lt_two_pow (n := 8) ha hb
  show ((a.val ^^^ b.val) % 256 ^^^ b.val) % 256 = a.val
  rw [Nat.mod_eq_of_lt h1, Nat.xor_cancel_right, Nat.mod_eq_of_lt ha]

namespace aes

theorem xorBytes_length (a b : List Byte) : (xorBytes a b).length = min a.length b.length := by
  simp [xorBytes]

theorem xorBytes_cancel : ∀ (a m : List Byte), a.length ≤ m.length →
    xorBytes (xorBytes a m) m = a
  | [], _, _ => by simp [xorBytes]
  | _ :: _, [], h => by simp at h
  | x :: a, y :: m, h => by
    have ih := xorBytes_cancel a m (by simpa using h)
    simp only [xorBytes] at ih ⊢
    simp [List.zipWith, byte_xor_cancel, ih]

theorem addRoundKey_length (s rk : List Byte) : (addRoundKey s rk).length = 16 := by
  simp [addRoundKey]

theorem blockEncrypt_length (c : Block) (src : List Byte) : (c.Encrypt src).length = 16 := by
  simp [Block.Encrypt, addRoundKey]

end aes

/-! ## GCM: counter mode is an involution, `Open` undoes `Seal` -/

namespace cipher

theorem natToBE_length : ∀ (n v : Nat), (natToBE n v).length = n
  | 0, _ => rfl
  | n + 1, v => by simp [natToBE, natToBE_length n v]

theorem counterBlocks_nil (c : aes.Block) : ∀ (n : Nat) (ctr : List Byte),
    counterBlocks c n [] ctr = []
  | 0, _ => rfl
  | n + 1, ctr => by simp [counterBlocks, aes.xorBytes, counterBlocks_nil c n]

theorem counterBlocks_length (c : aes.Block) : ∀ (n : Nat) (inp ctr : List Byte),
    inp.length ≤ 16 * n → (counterBlocks c n inp ctr).length = inp.length
  | 0, inp, _, h => by
    have : inp = [] := List.length_eq_zero.mp (by omega)
    simp [this, counterBlocks]
  | n + 1, inp, ctr, h => by
    have ih := counterBlocks_length c n (inp.drop 16) (gcmInc32 ctr) (by simp; omega)
    simp only [counterBlocks, gcmBlockSize, List.length_append, aes.xorBytes_length,
      aes.blockEncrypt_length, List.length_take, ih, List.length_drop]
    omega

theorem counterBlocks_involutive (c : aes.Block) : ∀ (n : Nat) (inp ctr : List Byte),
    inp.length ≤ 16 * n → counterBlocks c n (counterBlocks c n inp ctr) ctr = inp
  | 0, inp, _, h => by
    have : inp = [] := List.length_eq_zero.mp (by omega)
    simp [this, counterBlocks]
  | n + 1, inp, ctr, h => by
    have ih := counterBlocks_involutive c n (inp.drop 16) (gcmInc32 ctr) (by simp; omega)
    have hlen := counterBlocks_length c n (inp.drop 16) (gcmInc32 ctr) (by simp; omega)
    have hmask : (inp.take 16).length ≤ (c.Encrypt ctr).length := by
      rw [aes.blockEncrypt_length]; simp
    have hx : (aes.xorBytes (inp.take 16) (c.Encrypt ctr)).length = min 16 inp.length := by
      rw [aes.xorBytes_length, aes.blockEncrypt_length]; simp
    simp only [counterBlocks, gcmBlockSize]
    by_cases hl : 16 ≤ inp.length
    · have hx16 : (aes.xorBytes (inp.take 16) (c.Encrypt ctr)).length = 16 := by
        rw [hx]; omega
      rw [List.take_left' hx16, List.drop_left' hx16, aes.xorBytes_cancel _ _ hmask, ih,
        List.take_append_drop]
    · have hd : inp.drop 16 = [] := by
        apply List.drop_eq_nil_of_le; omega
      rw [hd, counterBlocks_nil, List.append_nil]
      have ht : (aes.xorBytes (inp.take 16) (c.Encrypt ctr)).take 16
          = aes.xorBytes (inp.take 16) (c.Encrypt ctr) := by
        apply List.take_of_length_le; rw [hx]; omega
      have hdd : (aes.xorBytes (inp.take 16) (c.Encrypt ctr)).drop 16 = [] := by
        apply List.drop_eq_nil_of_le; rw [hx]; omega
      rw [ht, hdd, counterBlocks_nil, List.append_nil, aes.xorBytes_cancel _ _ hmask]
      apply List.take_of_length_le; omega

theorem counterCrypt_length (g : GCM) (inp ctr : List Byte) :
    (g.counterCrypt inp ctr).length = inp.length :=
  counterBlocks_length g.cipher _ inp ctr (by omega)

theorem counterCrypt_involutive (g : GCM) (inp ctr : List Byte) :
    g.counterCrypt (g.counterCrypt inp ctr) ctr = inp := by
  have h := counterBlocks_involutive g.cipher ((inp.length + 15) / 16) inp ctr (by omega)
  simp only [GCM.counterCrypt]
  rw [counterBlocks_length g.cipher _ inp ctr (by omega)]
  exact h

theorem auth_length (g : GCM) (ct ad ctr : List Byte) :
    (g.auth ct ad (g.cipher.Encrypt ctr)).length = 16 := by
  simp [GCM.auth, aes.xorBytes_length, natToBE_length, aes.blockEncrypt_length]

/-- What `Seal` returns when it returns: `dst`, then a body of `len plaintext + 16` bytes
that `Open` under the same nonce and data turns back into the plaintext. -/
theorem Seal_ok (g : GCM) (dst nonce p data s : List Byte)
    (h : g.Seal dst nonce p data = .ok s) :
    nonce.length = 12 ∧ p.length ≤ gcmMaxPlaintext ∧
    ∃ body, s = dst ++ body ∧ body.length = p.length + 16 ∧
      g.Seal [] nonce p data = .ok body ∧
      (∀ dst', g.Open dst' nonce body data = .ok (dst' ++ p)) ∧
      ∃ ct tag, body = ct ++ tag ∧ ct.length = p.length ∧ tag.length = 16 ∧
        ct = g.counterCrypt p (gcmInc32 (g.deriveCounter nonce)) ∧
        tag = g.auth ct data (g.cipher.Encrypt (g.deriveCounter nonce)) := by
  unfold GCM.Seal at h
  simp only [GCM.NonceSize, gcmStandardNonceSize] at h
  split at h
  · exact absurd h (by simp)
  rename_i hn
  split at h
  · exact absurd h (by simp)
  rename_i hp
  have hn' : nonce.length = 12 := by simpa using hn
  have hp' : p.length ≤ gcmMaxPlaintext := by omega
  refine ⟨hn', hp', ?_⟩
  simp only [Result.ok.injEq] at h
  set ctr := g.deriveCounter nonce with hctr
  set out := g.counterCrypt p (gcmInc32 ctr) with hout
  set tag := g.auth out data (g.cipher.Encrypt ctr) with htag
  have hol : out.length = p.length := counterCrypt_length g p _
  have htl : tag.length = 16 := auth_length g out data ctr
  refine ⟨out ++ tag, by rw [← h, List.append_assoc], by simp [hol, htl], ?_, ?_,
    out, tag, rfl, hol, htl, rfl, rfl⟩
  · unfold GCM.Seal
    simp only [GCM.NonceSize, gcmStandardNonceSize]
    rw [if_neg hn, if_neg hp]
    simp [← hctr, ← hout, ← htag]
  · intro dst'
    unfold GCM.Open
    simp only [GCM.NonceSize, gcmStandardNonceSize, gcmTagSize]
    have hlen : (out ++ tag).length = p.length + 16 := by simp [hol, htl]
    rw [if_neg hn, if_neg (by omega), if_neg (by omega)]
    have hsub : (out ++ tag).length - 16 = out.length := by omega
    simp only [hsub, List.take_left, List.drop_left, ← hctr, ← htag]
    simp [hout, counterCrypt_involutive]

/-- Go's `Seal` returns whenever the nonce has 12 bytes and the plaintext is within GCM's
limit. -/
theorem Seal_returns (g : GCM) (dst nonce p data : List Byte) (hn : nonce.length = 12)
    (hp : p.length ≤ gcmMaxPlaintext) : ∃ s, g.Seal dst nonce p data = .ok s := by
  unfold GCM.Seal
  simp only [GCM.NonceSize, gcmStandardNonceSize]
  rw [if_neg (by simpa using hn), if_neg (by omega)]
  exact ⟨_, rfl⟩

/-- Go's `Open` rejects every input shorter than the tag. -/
theorem Open_short (g : GCM) (dst nonce ct data : List Byte) (hn : nonce.length = 12)
    (h : ct.length < 16) : g.Open dst nonce ct data = .error errOpen := by
  unfold GCM.Open
  simp only [GCM.NonceSize, gcmStandardNonceSize, gcmTagSize]
  rw [if_neg (by simpa using hn), if_pos h]

/-- Go's `Open` never panics on a 12-byte nonce, and its only error is `errOpen`. -/
theorem Open_cases (g : GCM) (dst nonce ct data : List Byte) (hn : nonce.length = 12) :
    g.Open dst nonce ct data = .error errOpen ∨ ∃ p, g.Open dst nonce ct data = .ok p := by
  unfold GCM.Open
  simp only [GCM.NonceSize, gcmStandardNonceSize, gcmTagSize]
  rw [if_neg (by simpa using hn)]
  split
  · exact Or.inl rfl
  split
  · exact Or.inl rfl
  split
  · exact Or.inl rfl
  · exact Or.inr ⟨_, rfl⟩

/-- Go's `Open` rejects a body whose last 16 bytes are not the tag of what precedes them. -/
theorem Open_wrong_tag (g : GCM) (dst nonce ct tag data : List Byte)
    (hn : nonce.length = 12) (hl : tag.length = 16)
    (hne : g.auth ct data (g.cipher.Encrypt (g.deriveCounter nonce)) ≠ tag) :
    g.Open dst nonce (ct ++ tag) data = .error errOpen := by
  unfold GCM.Open
  simp only [GCM.NonceSize, gcmStandardNonceSize, gcmTagSize]
  rw [if_neg (by simpa using hn)]
  split
  · rfl
  split
  · rfl
  have hsub : (ct ++ tag).length - 16 = ct.length := by simp [hl]
  simp only [hsub, List.take_left, List.drop_left]
  rw [if_pos hne]

theorem mulLoop_zero (x : Nat) : ∀ (todo z : Nat), mulLoop x todo z 0 = z
  | 0, _ => rfl
  | n + 1, z => by
    simp only [mulLoop, Nat.zero_mod, Nat.zero_div, if_true, Nat.xor_zero, ite_self]
    exact mulLoop_zero x n z

/-- Multiplying by the zero block gives the zero block. -/
theorem gcmMul_zero (x : Nat) : gcmMul x 0 = 0 := mulLoop_zero x 128 0

/-- With a zero hash subkey the tag does not depend on the ciphertext. -/
theorem auth_zero_subkey (g : GCM) (hg : g.h = 0) (ct ad mask : List Byte) :
    g.auth ct ad mask = aes.xorBytes (natToBE 16 0) mask := by
  simp only [GCM.auth, hg, gcmMul_zero]

/-- Counter mode is injective. -/
theorem counterCrypt_injective (g : GCM) (a b ctr : List Byte)
    (h : g.counterCrypt a ctr = g.counterCrypt b ctr) : a = b := by
  rw [← counterCrypt_involutive g a ctr, h, counterCrypt_involutive]

/-- The function `Open` accepts a body whose last 16 bytes are the tag of what precedes. -/
theorem Open_right_tag (g : GCM) (dst nonce ct tag data : List Byte)
    (hn : nonce.length = 12) (hl : tag.length = 16) (hmax : ct.length ≤ gcmMaxPlaintext)
    (ht : g.auth ct data (g.cipher.Encrypt (g.deriveCounter nonce)) = tag) :
    g.Open dst nonce (ct ++ tag) data
      = .ok (dst ++ g.counterCrypt ct (gcmInc32 (g.deriveCounter nonce))) := by
  unfold GCM.Open
  simp only [GCM.NonceSize, gcmStandardNonceSize, gcmTagSize]
  have hlen : (ct ++ tag).length = ct.length + 16 := by simp [hl]
  rw [if_neg (by simpa using hn), if_neg (by omega), if_neg (by omega)]
  have hsub : (ct ++ tag).length - 16 = ct.length := by omega
  simp only [hsub, List.take_left, List.drop_left]
  rw [if_neg (by simpa using ht)]

end cipher

namespace io

theorem ReadFull_ok (r : Reader) (n : Nat) (bs : List Byte) (h : ReadFull r n = .ok bs) :
    bs = r.data.take n ∧ bs.length = n := by
  unfold ReadFull at h
  split at h
  · rename_i hn
    have hb : bs = r.data.take n := by
      simp only [Except.ok.injEq] at h; exact h.symm
    exact ⟨hb, by rw [hb, List.length_take]; omega⟩
  · split at h <;> exact absurd h (by simp)

end io

/-! ## The key guard and the two operations -/

namespace crypto

theorem copy_length (dst src : List Byte) : (copy dst src).length = dst.length := by
  simp [copy]; omega

theorem copy_full (dst src : List Byte) (h : src.length = dst.length) : copy dst src = src := by
  simp [copy, ← h]

theorem ensureKey_nonzero (G : SecretProvider) (key : Key) (h : IsZero key = false) :
    ensureKey G key = (none, key) := by
  simp [ensureKey, h]

theorem ensureKey_zero (G : SecretProvider) (key : Key) (h : IsZero key = true) :
    ensureKey G key = initKey G key := by
  simp [ensureKey, h]

theorem initKey_error (G : SecretProvider) (key : Key) (e : Error)
    (h : G "AES_KEY" = .error e) : initKey G key = (some e, key) := by
  simp [initKey, h]

theorem initKey_wrong_length (G : SecretProvider) (key : Key) (b : List Byte)
    (h : G "AES_KEY" = .ok b) (hl : b.length ≠ 32) :
    initKey G key = (some "key is not 32 bytes", key) := by
  simp [initKey, h, hl]

theorem initKey_ok (G : SecretProvider) (key : Key) (b : List Byte)
    (h : G "AES_KEY" = .ok b) (hl : b.length = 32) : initKey G key = (none, ⟨b, hl⟩) := by
  have hc : copy key.val b = b := copy_full _ _ (by rw [hl, key.property])
  simp [initKey, h, hl, hc]

/-- When `initKey` succeeds the provider returned the 32 bytes now held in `key`. -/
theorem initKey_none (G : SecretProvider) (key k : Key) (h : initKey G key = (none, k)) :
    G "AES_KEY" = .ok k.val := by
  cases hg : G "AES_KEY" with
  | error e => rw [initKey_error G key e hg] at h; exact absurd h (by simp)
  | ok b =>
    by_cases hl : b.length = 32
    · rw [initKey_ok G key b hg hl] at h
      have : (⟨b, hl⟩ : Key) = k := (Prod.mk.inj h).2
      rw [← this]
    · rw [initKey_wrong_length G key b hg hl] at h; exact absurd h (by simp)

/-- Once the guard has let a call through, it lets the next call through with the same
key, as long as the provider answers the same. -/
theorem ensureKey_idem (G : SecretProvider) (key k : Key) (h : ensureKey G key = (none, k)) :
    ensureKey G k = (none, k) := by
  cases hz : IsZero k with
  | false => exact ensureKey_nonzero G k hz
  | true =>
    rw [ensureKey_zero G k hz]
    cases hz0 : IsZero key with
    | false =>
      rw [ensureKey_nonzero G key hz0] at h
      have : key = k := (Prod.mk.inj h).2
      rw [this] at hz0; rw [hz0] at hz; exact absurd hz (by simp)
    | true =>
      rw [ensureKey_zero G key hz0] at h
      have hg := initKey_none G key k h
      have := initKey_ok G k k.val hg k.property
      simpa using this

/-- The guard either fails, leaving `key` as it was, or lets the call through. -/
theorem ensureKey_cases (G : SecretProvider) (key : Key) :
    (∃ e, ensureKey G key = (some e, key)) ∨ ∃ k, ensureKey G key = (none, k) := by
  cases hz : IsZero key with
  | false => exact Or.inr ⟨key, ensureKey_nonzero G key hz⟩
  | true =>
    rw [ensureKey_zero G key hz]
    cases hg : G "AES_KEY" with
    | error e => exact Or.inl ⟨e, initKey_error G key e hg⟩
    | ok b =>
      by_cases hl : b.length = 32
      · exact Or.inr ⟨_, initKey_ok G key b hg hl⟩
      · exact Or.inl ⟨_, initKey_wrong_length G key b hg hl⟩

theorem zero_bytes_eq (b : List Byte) (hl : b.length = 32) (h0 : ∀ x ∈ b, x = 0) :
    (⟨b, hl⟩ : Key) = zeroKey := by
  apply Subtype.ext
  show b = List.replicate 32 0
  exact List.eq_replicate_iff.mpr ⟨hl, h0⟩

theorem newCipher_ok (k : Key) : aes.NewCipher k.val = .ok ⟨aes.expandKey k.val⟩ := by
  simp [aes.NewCipher, k.property]

theorem Encrypt_fail (G : SecretProvider) (r : io.Reader) (key k : Key) (p : List Byte)
    (e : Error) (h : ensureKey G key = (some e, k)) : Encrypt G r key p = (.error e, k) := by
  simp [Encrypt, h]

theorem Decrypt_fail (G : SecretProvider) (key k : Key) (c : List Byte)
    (e : Error) (h : ensureKey G key = (some e, k)) : Decrypt G key c = (.error e, k) := by
  simp [Decrypt, h]

theorem Encrypt_run (G : SecretProvider) (r : io.Reader) (key k : Key) (p : List Byte)
    (block : aes.Block) (gcm : cipher.GCM) (h : ensureKey G key = (none, k))
    (hb : aes.NewCipher k.val = .ok block) (hg : cipher.NewGCM block = .ok gcm) :
    Encrypt G r key p =
      match io.ReadFull r 12 with
      | .error err => (.error err, k)
      | .ok nonce => (gcm.Seal nonce nonce p [], k) := by
  simp only [Encrypt, h, hb, hg, cipher.GCM.NonceSize, cipher.gcmStandardNonceSize]

theorem Decrypt_run (G : SecretProvider) (key k : Key) (c : List Byte)
    (block : aes.Block) (gcm : cipher.GCM) (h : ensureKey G key = (none, k))
    (hb : aes.NewCipher k.val = .ok block) (hg : cipher.NewGCM block = .ok gcm) :
    Decrypt G key c =
      if c.length < 12 then (.error "malformed ciphertext", k)
      else (gcm.Open [] (c.take 12) (c.drop 12) [], k) := by
  simp only [Decrypt, h, hb, hg, cipher.GCM.NonceSize, cipher.gcmStandardNonceSize]

theorem Encrypt_snd (G : SecretProvider) (r : io.Reader) (key : Key) (p : List Byte) :
    (Encrypt G r key p).2 = (ensureKey G key).2 := by
  rcases ensureKey_cases G key with ⟨e, he⟩ | ⟨k, hk⟩
  · rw [Encrypt_fail G r key key p e he, he]
  · rw [Encrypt_run G r key k p _ _ hk (newCipher_ok k) rfl, hk]
    cases io.ReadFull r 12 <;> rfl

theorem Decrypt_snd (G : SecretProvider) (key : Key) (c : List Byte) :
    (Decrypt G key c).2 = (ensureKey G key).2 := by
  rcases ensureKey_cases G key with ⟨e, he⟩ | ⟨k, hk⟩
  · rw [Decrypt_fail G key key c e he, he]
  · rw [Decrypt_run G key k c _ _ hk (newCipher_ok k) rfl, hk]
    split <;> rfl

/-- Everything a successful `Encrypt` tells about the call. -/
theorem Encrypt_ok (G : SecretProvider) (r : io.Reader) (key k : Key) (p c : List Byte)
    (h : Encrypt G r key p = (.ok c, k)) :
    ensureKey G key = (none, k) ∧
    ∃ nonce, io.ReadFull r 12 = .ok nonce ∧
      ∀ block gcm, aes.NewCipher k.val = .ok block → cipher.NewGCM block = .ok gcm →
        gcm.Seal nonce nonce p [] = .ok c := by
  rcases ensureKey_cases G key with ⟨e, he⟩ | ⟨k', hk⟩
  · rw [Encrypt_fail G r key key p e he] at h; exact absurd h (by simp)
  · have hrun := Encrypt_run G r key k' p _ _ hk (newCipher_ok k') rfl
    rw [hrun] at h
    cases hr : io.ReadFull r 12 with
    | error e => rw [hr] at h; exact absurd h (by simp)
    | ok nonce =>
      rw [hr] at h
      simp only at h
      have h1 := (Prod.mk.inj h).1
      have h2 : k' = k := (Prod.mk.inj h).2
      subst h2
      refine ⟨hk, nonce, rfl, ?_⟩
      intro block gcm hb hg
      rw [newCipher_ok] at hb
      cases hb
      cases hg
      exact h1

/-- A successful `Encrypt` returns 28 bytes more than the plaintext. -/
theorem Encrypt_length (G : SecretProvider) (r : io.Reader) (key k : Key)
    (p c : List Byte) (h : Encrypt G r key p = (.ok c, k)) : c.length = 12 + p.length + 16 := by
  obtain ⟨_, nonce, _, hs⟩ := Encrypt_ok G r key k p c h
  obtain ⟨hn, _, body, hc, hbl, _⟩ := cipher.Seal_ok _ _ _ _ _ _ (hs _ _ (newCipher_ok k) rfl)
  rw [hc, List.length_append]; omega

/-- The function `Encrypt` succeeds whenever the guard lets the call through, the random
source has 12 bytes and the plaintext is within GCM's limit. -/
theorem Encrypt_returns (G : SecretProvider) (r : io.Reader) (key k : Key) (p : List Byte)
    (hk : ensureKey G key = (none, k)) (hr : 12 ≤ r.data.length)
    (hp : p.length ≤ cipher.gcmMaxPlaintext) : ∃ c, Encrypt G r key p = (.ok c, k) := by
  have hread : io.ReadFull r 12 = .ok (r.data.take 12) := by simp [io.ReadFull, hr]
  obtain ⟨s, hs⟩ := cipher.Seal_returns
    (⟨⟨aes.expandKey k.val⟩, cipher.beToNat ((⟨aes.expandKey k.val⟩ : aes.Block).Encrypt
      (List.replicate cipher.gcmBlockSize 0))⟩ : cipher.GCM)
    (r.data.take 12) (r.data.take 12) p [] (by rw [List.length_take]; omega) hp
  exact ⟨s, by rw [Encrypt_run G r key k p _ _ hk (newCipher_ok k) rfl, hread, ← hs]⟩

/-- A call the guard lets through with key `k` decrypts what was sealed under `k`. -/
theorem Decrypt_sealed (G : SecretProvider) (key k : Key) (nonce p c : List Byte)
    (hk : ensureKey G key = (none, k))
    (hs : (⟨⟨aes.expandKey k.val⟩, cipher.beToNat
      ((⟨aes.expandKey k.val⟩ : aes.Block).Encrypt (List.replicate cipher.gcmBlockSize 0))⟩ :
        cipher.GCM).Seal nonce nonce p [] = .ok c) :
    Decrypt G key c = (.ok p, k) := by
  obtain ⟨hn, _, body, hc, hbl, _, hopen, _⟩ := cipher.Seal_ok _ _ _ _ _ _ hs
  rw [Decrypt_run G key k c _ _ hk (newCipher_ok k) rfl]
  have hlen : ¬ c.length < 12 := by rw [hc, List.length_append]; omega
  rw [if_neg hlen, hc, List.take_left' hn, List.drop_left' hn, hopen []]
  rfl

/-- Tampering with the tag: a message that has the length of a sealed message `c` and
agrees with it on the nonce and the ciphertext, but is not `c`, is rejected by `Decrypt`
with the authentication error. -/
theorem Decrypt_tag_tampered (G : SecretProvider) (r : io.Reader) (key k : Key)
    (p c c' : List Byte) (h : Encrypt G r key p = (.ok c, k))
    (hlen : c'.length = c.length) (hpre : c'.take (12 + p.length) = c.take (12 + p.length))
    (hne : c' ≠ c) : Decrypt G k c' = (.error cipher.errOpen, k) := by
  obtain ⟨hk, nonce, _, hs⟩ := Encrypt_ok G r key k p c h
  obtain ⟨hn, _, body, hc, _, _, _, ct, tag, hb, hcl, htl, _, htag⟩ :=
    cipher.Seal_ok _ _ _ _ _ _ (hs _ _ (newCipher_ok k) rfl)
  have hcl' : c.length = 12 + p.length + 16 := by
    rw [hc, hb]; simp [hn, hcl, htl]; omega
  have hc2 : c = (nonce ++ ct) ++ tag := by rw [hc, hb, List.append_assoc]
  have hnc : (nonce ++ ct).length = 12 + p.length := by simp [hn, hcl]
  have hpre' : c'.take (12 + p.length) = nonce ++ ct := by
    rw [hpre, hc2, List.take_left' hnc]
  obtain ⟨t, ht⟩ : ∃ t, t = c'.drop (12 + p.length) := ⟨_, rfl⟩
  have hc' : c' = nonce ++ (ct ++ t) := by
    rw [← List.append_assoc, ← hpre', ht, List.take_append_drop]
  have htl' : t.length = 16 := by
    rw [ht, List.length_drop]; omega
  have hne' : tag ≠ t := by
    intro h'; apply hne; rw [hc', hc, hb, h']
  have ht12 : c'.take 12 = nonce := by rw [hc', List.take_left' hn]
  have hd12 : c'.drop 12 = ct ++ t := by rw [hc', List.drop_left' hn]
  rw [Decrypt_run G k k c' _ _ (ensureKey_idem G key k hk) (newCipher_ok k) rfl,
    if_neg (by omega), ht12, hd12,
    cipher.Open_wrong_tag _ _ _ _ _ _ hn htl' (by rw [← htag]; exact hne')]

set_option maxRecDepth 100000 in
/-- Flipping a bit changes the byte. -/
theorem flip_ne : ∀ (b : Byte) (j : Fin 8), b ^^^ Fin.ofNat (2 ^ j.val) ≠ b := by
  decide

/-- Tampering with the tag region: flipping any single bit in the last 16 bytes of a
sealed message makes `Decrypt` fail with the authentication error. -/
theorem Decrypt_tag_bit_flipped (G : SecretProvider) (r : io.Reader) (key k : Key)
    (p c : List Byte) (i j : Nat) (h : Encrypt G r key p = (.ok c, k))
    (hi : 12 + p.length ≤ i) (hi' : i < c.length) (hj : j < 8) :
    Decrypt G k (flipBit c i j) = (.error cipher.errOpen, k) := by
  apply Decrypt_tag_tampered G r key k p c _ h
  · simp [flipBit]
  · simp only [flipBit]
    rw [List.set_take, List.set_eq_of_length_le (by rw [List.length_take]; omega)]
  · intro heq
    have hg := congrArg (fun l => l.getD i 0) heq
    simp only [flipBit] at hg
    rw [List.getD_eq_getElem?_getD, List.getD_eq_getElem?_getD, List.getElem?_set_self hi',
      List.getElem?_eq_getElem hi'] at hg
    simp only [Option.getD_some] at hg
    exact flip_ne _ ⟨j, hj⟩ hg

/-- Tampering under a zero hash subkey. If the key `k` has the hash subkey
`E_k(0^128) = 0`, flipping any single bit in the ciphertext region of a sealed message
goes unnoticed: `Decrypt` succeeds and returns a plaintext other than the original. -/
theorem Decrypt_flip_accepted_of_zero_subkey (G : SecretProvider) (r : io.Reader)
    (key k : Key) (p c : List Byte) (i j : Nat) (h : Encrypt G r key p = (.ok c, k))
    (hH : cipher.beToNat ((⟨aes.expandKey k.val⟩ : aes.Block).Encrypt
      (List.replicate cipher.gcmBlockSize 0)) = 0)
    (hi : 12 ≤ i) (hi' : i < 12 + p.length) (hj : j < 8) :
    ∃ p', p' ≠ p ∧ Decrypt G k (flipBit c i j) = (.ok p', k) := by
  obtain ⟨hk, nonce, _, hs⟩ := Encrypt_ok G r key k p c h
  obtain ⟨hn, hmax, body, hc, _, _, _, ct, tag, hb, hcl, htl, hct, htag⟩ :=
    cipher.Seal_ok _ _ _ _ _ _ (hs _ _ (newCipher_ok k) rfl)
  obtain ⟨g, hg⟩ : ∃ g : cipher.GCM, g = ⟨⟨aes.expandKey k.val⟩, cipher.beToNat
    ((⟨aes.expandKey k.val⟩ : aes.Block).Encrypt (List.replicate cipher.gcmBlockSize 0))⟩ :=
    ⟨_, rfl⟩
  rw [← hg] at hct htag
  have hgh : g.h = 0 := by rw [hg]; exact hH
  obtain ⟨v, hv⟩ : ∃ v, v = c.getD i 0 ^^^ Fin.ofNat (2 ^ j) := ⟨_, rfl⟩
  have hget : c.getD i 0 = ct.getD (i - 12) 0 := by
    rw [hc, hb, List.getD_eq_getElem?_getD, List.getD_eq_getElem?_getD,
      List.getElem?_append_right (by omega), hn,
      List.getElem?_append_left (by omega)]
  have hflip : flipBit c i j = nonce ++ (ct.set (i - 12) v ++ tag) := by
    simp only [flipBit, ← hv]
    rw [hc, hb, List.set_append_right _ _ (by omega), hn,
      List.set_append_left _ _ (by omega)]
  have hne : ct.set (i - 12) v ≠ ct := by
    intro heq
    have hg' := congrArg (fun l => l.getD (i - 12) 0) heq
    simp only at hg'
    rw [List.getD_eq_getElem?_getD, List.getD_eq_getElem?_getD,
      List.getElem?_set_self (by omega), List.getElem?_eq_getElem (by omega)] at hg'
    simp only [Option.getD_some] at hg'
    rw [hv, hget, List.getD_eq_getElem?_getD, List.getElem?_eq_getElem (by omega)] at hg'
    simp only [Option.getD_some] at hg'
    exact flip_ne _ ⟨j, hj⟩ hg'
  have htag' : g.auth (ct.set (i - 12) v) [] (g.cipher.Encrypt (g.deriveCounter nonce))
      = tag := by
    rw [htag, cipher.auth_zero_subkey g hgh, cipher.auth_zero_subkey g hgh]
  refine ⟨g.counterCrypt (ct.set (i - 12) v) (cipher.gcmInc32 (g.deriveCounter nonce)), ?_, ?_⟩
  · intro heq
    apply hne
    apply cipher.counterCrypt_injective g _ _ (cipher.gcmInc32 (g.deriveCounter nonce))
    rw [heq, hct, cipher.counterCrypt_involutive]
  · rw [Decrypt_run G k k _ _ _ (ensureKey_idem G key k hk) (newCipher_ok k) rfl, hflip,
      if_neg (by rw [List.length_append]; omega), List.take_left' hn, List.drop_left' hn,
      ← hg, cipher.Open_right_tag g [] nonce _ tag [] hn htl
        (by rw [List.length_set]; omega) htag']
    rfl

end crypto

/-! ## The concrete scenario, evaluated -/

namespace crypto

set_option maxRecDepth 100000 in
/-- The concrete scenario: under the key of 32 bytes `0x01`, with the nonce `00 01 .. 0b`,
`Encrypt "hello"` returns the 33 bytes `helloSealed`. -/
theorem Encrypt_hello :
    Encrypt failingProvider countingReader onesKey hello = (.ok helloSealed, onesKey) := by
  decide

set_option maxRecDepth 100000 in
/-- With the nonce `00 01 .. 0b`, under the key of 32 bytes `0x01`, `Encrypt` of the empty
plaintext returns the 28 bytes `emptySealed`. -/
theorem Encrypt_empty :
    Encrypt failingProvider countingReader onesKey [] = (.ok emptySealed, onesKey) := by
  decide

set_option maxRecDepth 100000 in
/-- With a provider that returns 32 zero bytes, `Encrypt "hello"` from the all-zero key
state seals under the all-zero key and leaves the key state all zero. -/
theorem Encrypt_zero_key :
    Encrypt (fixedProvider (List.replicate 32 0)) countingReader zeroKey hello
      = (.ok zeroSealed, zeroKey) := by
  decide

set_option maxRecDepth 100000 in
/-- From the all-zero key state, with a provider that returns 32 bytes `0x01`, `Decrypt`
loads that key and rejects what was sealed under the all-zero key. -/
theorem Decrypt_after_key_change :
    Decrypt (fixedProvider (List.replicate 32 1)) zeroKey zeroSealed
      = (.error cipher.errOpen, onesKey) := by
  decide

set_option maxRecDepth 100000 in
/-- The concrete scenario, tampered: with the last byte xored with `0x01`, the sealed
"hello" is rejected. -/
theorem Decrypt_hello_tampered :
    helloTampered = flipBit helloSealed 32 0 ∧
    Decrypt failingProvider onesKey helloTampered = (.error cipher.errOpen, onesKey) := by
  refine ⟨by decide, ?_⟩
  have h := Decrypt_tag_bit_flipped failingProvider countingReader onesKey onesKey hello
    helloSealed 32 0 Encrypt_hello (by decide) (by decide) (by decide)
  have e : flipBit helloSealed 32 0 = helloTampered := by decide
  rw [e] at h; exact h

end crypto

/-! ## The claims -/

namespace crypto

/-- C1. Round trip: whenever `Encrypt p` succeeds with output `c` and leaves the key state
`k`, `Decrypt c` succeeds and returns exactly `p`, from the key state `k` that `Encrypt`
left as well as from the key state it started from, and the key state stays `k`; when `k`
is not all zero this holds whatever the secret provider answers by then. The plaintext,
the key state and the random source are arbitrary. -/
theorem Encrypt_Decrypt_round_trip (G : SecretProvider) (r : io.Reader) (key k : Key)
    (p c : List Byte) (h : Encrypt G r key p = (.ok c, k)) :
    Decrypt G k c = (.ok p, k) ∧ Decrypt G key c = (.ok p, k) ∧
      (IsZero k = false → ∀ G', Decrypt G' k c = (.ok p, k)) := by
  obtain ⟨hk, nonce, _, hs⟩ := Encrypt_ok G r key k p c h
  have hseal := hs _ _ (newCipher_ok k) rfl
  exact ⟨Decrypt_sealed G k k nonce p c (ensureKey_idem G key k hk) hseal,
    Decrypt_sealed G key k nonce p c hk hseal,
    fun hz G' => Decrypt_sealed G' k k nonce p c (ensureKey_nonzero G' k hz) hseal⟩

/-- Witness of C1: the empty plaintext and "hello" under the key of 32 bytes `0x01`. -/
theorem Encrypt_Decrypt_round_trip_witness :
    (Encrypt failingProvider countingReader onesKey [] = (.ok emptySealed, onesKey) ∧
      Decrypt failingProvider onesKey emptySealed = (.ok [], onesKey)) ∧
    (Encrypt failingProvider countingReader onesKey hello = (.ok helloSealed, onesKey) ∧
      Decrypt failingProvider onesKey helloSealed = (.ok hello, onesKey)) :=
  ⟨⟨Encrypt_empty, (Encrypt_Decrypt_round_trip _ _ _ _ _ _ Encrypt_empty).1⟩,
    ⟨Encrypt_hello, (Encrypt_Decrypt_round_trip _ _ _ _ _ _ Encrypt_hello).1⟩⟩

/-- C2. Output length: a successful `Encrypt p` returns exactly
`nonce_length + len p + tag_length = 12 + len p + 16` bytes; with the key of 32 bytes `0x01`
and the plaintext `"hello"` that is 33 bytes. -/
theorem Encrypt_output_length (G : SecretProvider) (r : io.Reader) (key k : Key)
    (p c : List Byte) (h : Encrypt G r key p = (.ok c, k)) :
    c.length = cipher.gcmStandardNonceSize + p.length + cipher.gcmTagSize ∧
      c.length = 12 + p.length + 16 ∧ (key = onesKey → p = hello → c.length = 33) := by
  have hl := Encrypt_length G r key k p c h
  refine ⟨hl, hl, ?_⟩
  intro _ hp
  rw [hl, hp]; rfl

/-- Witness of C2: the sealed "hello" has 33 bytes. -/
theorem Encrypt_output_length_witness :
    Encrypt failingProvider countingReader onesKey hello = (.ok helloSealed, onesKey) ∧
    helloSealed.length = 12 + hello.length + 16 ∧ helloSealed.length = 33 :=
  ⟨Encrypt_hello, (Encrypt_output_length _ _ _ _ _ _ Encrypt_hello).2.1,
    (Encrypt_output_length _ _ _ _ _ _ Encrypt_hello).2.2 rfl rfl⟩

/-- C3. Wire format: a successful `Encrypt p` returns `nonce ++ ct ++ tag`: the leading 12
bytes are the nonce `io.ReadFull` took from the random source in this call, the rest is
what the GCM built from the stored key seals for `p` under that nonce with no associated
data, `len p` bytes of ciphertext and 16 of tag. `Decrypt`, once the key guard lets it
through with that key and the input has at least 12 bytes, hands the first 12 bytes to
`Open` as the nonce and the rest as ciphertext and tag, with no associated data. -/
theorem wire_format (G : SecretProvider) (r : io.Reader) (key k : Key) (p c : List Byte)
    (h : Encrypt G r key p = (.ok c, k)) :
    ∃ nonce block gcm ct tag,
      io.ReadFull r 12 = .ok nonce ∧ nonce = r.data.take 12 ∧ nonce.length = 12 ∧
      aes.NewCipher k.val = .ok block ∧ cipher.NewGCM block = .ok gcm ∧
      gcm.NonceSize = 12 ∧ gcm.Overhead = 16 ∧
      gcm.Seal [] nonce p [] = .ok (ct ++ tag) ∧ ct.length = p.length ∧ tag.length = 16 ∧
      c = nonce ++ ct ++ tag ∧ c.take 12 = nonce ∧ c.drop 12 = ct ++ tag ∧
      ∀ (G' : SecretProvider) (key' : Key) (c' : List Byte),
        ensureKey G' key' = (none, k) → 12 ≤ c'.length →
          Decrypt G' key' c' = (gcm.Open [] (c'.take 12) (c'.drop 12) [], k) := by
  obtain ⟨_, nonce, hr, hs⟩ := Encrypt_ok G r key k p c h
  obtain ⟨hn, _, body, hc, _, hseal, _, ct, tag, hb, hcl, htl, _⟩ :=
    cipher.Seal_ok _ _ _ _ _ _ (hs _ _ (newCipher_ok k) rfl)
  obtain ⟨hnd, _⟩ := io.ReadFull_ok r 12 nonce hr
  refine ⟨nonce, _, _, ct, tag, hr, hnd, hn, newCipher_ok k, rfl, rfl, rfl, ?_, hcl, htl, ?_,
    ?_, ?_, ?_⟩
  · rw [← hb]; exact hseal
  · rw [hc, hb, List.append_assoc]
  · rw [hc, List.take_left' hn]
  · rw [hc, List.drop_left' hn, hb]
  · intro G' key' c' hk hl
    rw [Decrypt_run G' key' k c' _ _ hk (newCipher_ok k) rfl, if_neg (by omega)]

/-- Witness of C3: the sealed "hello" starts with the 12 bytes of the random source. -/
theorem wire_format_witness :
    Encrypt failingProvider countingReader onesKey hello = (.ok helloSealed, onesKey) ∧
    ∃ nonce block gcm ct tag,
      io.ReadFull countingReader 12 = .ok nonce ∧ nonce = countingReader.data.take 12 ∧
      nonce.length = 12 ∧
      aes.NewCipher onesKey.val = .ok block ∧ cipher.NewGCM block = .ok gcm ∧
      gcm.NonceSize = 12 ∧ gcm.Overhead = 16 ∧
      gcm.Seal [] nonce hello [] = .ok (ct ++ tag) ∧ ct.length = hello.length ∧
      tag.length = 16 ∧
      helloSealed = nonce ++ ct ++ tag ∧ helloSealed.take 12 = nonce ∧
      helloSealed.drop 12 = ct ++ tag ∧
      ∀ (G' : SecretProvider) (key' : Key) (c' : List Byte),
        ensureKey G' key' = (none, onesKey) → 12 ≤ c'.length →
          Decrypt G' key' c' = (gcm.Open [] (c'.take 12) (c'.drop 12) [], onesKey) :=
  ⟨Encrypt_hello, wire_format _ _ _ _ _ _ Encrypt_hello⟩

/-- C4 as stated fails: with the key still all zero and a failing secret provider,
`Decrypt` of a 5-byte input returns the provider's error, not "malformed ciphertext". -/
theorem Decrypt_short_input_init_error :
    fiveBytes.length < 12 ∧
    Decrypt failingProvider zeroKey fiveBytes = (.error "secret not found", zeroKey) ∧
    (Decrypt failingProvider zeroKey fiveBytes).1 ≠ .error "malformed ciphertext" := by
  decide

/-- C4, as the code has it. On an input shorter than 12 bytes `Decrypt` always returns an
error, never a plaintext and never a panic. The error is "malformed ciphertext" whenever
the key guard lets the call through (the key is not all zero, or `initKey` succeeds);
when the guard fails, its error is returned instead and the key stays as it was. -/
theorem Decrypt_short_input (G : SecretProvider) (key : Key) (c : List Byte)
    (hl : c.length < 12) :
    (∃ e, (Decrypt G key c).1 = .error e) ∧
    ((ensureKey G key).1 = none →
      Decrypt G key c = (.error "malformed ciphertext", (ensureKey G key).2)) ∧
    (∀ e, (ensureKey G key).1 = some e → Decrypt G key c = (.error e, key)) := by
  rcases ensureKey_cases G key with ⟨e, he⟩ | ⟨k, hk⟩
  · have hd := Decrypt_fail G key key c e he
    refine ⟨⟨e, by rw [hd]⟩, ?_, ?_⟩
    · intro hn; rw [he] at hn; exact absurd hn (by simp)
    · intro e' he'; rw [he] at he'; cases he'; exact hd
  · have hd := Decrypt_run G key k c _ _ hk (newCipher_ok k) rfl
    rw [if_pos hl] at hd
    refine ⟨⟨_, by rw [hd]⟩, ?_, ?_⟩
    · intro _; rw [hd, hk]
    · intro e he; rw [hk] at he; exact absurd he (by simp)

/-- Witness of C4 as amended: a 5-byte input under the key of 32 bytes `0x01`. -/
theorem Decrypt_short_input_witness :
    fiveBytes.length < 12 ∧
    Decrypt failingProvider onesKey fiveBytes = (.error "malformed ciphertext", onesKey) :=
  ⟨by decide, (Decrypt_short_input failingProvider onesKey fiveBytes (by decide)).2.1 rfl⟩

/-- C5. Key validation: `initKey` succeeds exactly when the lookup of "AES_KEY" succeeds
with 32 bytes, and then `key` holds those bytes; a result of any other length gives the
error "key is not 32 bytes", a failed lookup gives the provider's error, and in both
cases `key` is left as it was. -/
theorem initKey_validation (G : SecretProvider) (key : Key) :
    ((initKey G key).1 = none ↔ ∃ b, G "AES_KEY" = .ok b ∧ b.length = 32) ∧
    (∀ b, G "AES_KEY" = .ok b → b.length = 32 →
      (initKey G key).1 = none ∧ (initKey G key).2.val = b) ∧
    (∀ b, G "AES_KEY" = .ok b → b.length ≠ 32 →
      initKey G key = (some "key is not 32 bytes", key)) ∧
    (∀ e, G "AES_KEY" = .error e → initKey G key = (some e, key)) := by
  refine ⟨⟨?_, ?_⟩, ?_, ?_, ?_⟩
  · intro h
    have hk : initKey G key = (none, (initKey G key).2) := by rw [← h]
    exact ⟨_, initKey_none G key _ hk, (initKey G key).2.property⟩
  · rintro ⟨b, hb, hl⟩; rw [initKey_ok G key b hb hl]
  · intro b hb hl; rw [initKey_ok G key b hb hl]; exact ⟨rfl, rfl⟩
  · intro b hb hl; exact initKey_wrong_length G key b hb hl
  · intro e he; exact initKey_error G key e he

/-- Witness of C5: secrets of 32, 31 and 33 bytes, and a failing provider. -/
theorem initKey_validation_witness :
    (initKey (fixedProvider (List.replicate 32 1)) zeroKey).1 = none ∧
    (initKey (fixedProvider (List.replicate 32 1)) zeroKey).2.val = List.replicate 32 1 ∧
    initKey (fixedProvider (List.replicate 31 1)) zeroKey
      = (some "key is not 32 bytes", zeroKey) ∧
    initKey (fixedProvider (List.replicate 33 1)) zeroKey
      = (some "key is not 32 bytes", zeroKey) ∧
    initKey failingProvider zeroKey = (some "secret not found", zeroKey) :=
  ⟨((initKey_validation (fixedProvider (List.replicate 32 1)) zeroKey).2.1
      (List.replicate 32 1) rfl rfl).1,
    ((initKey_validation (fixedProvider (List.replicate 32 1)) zeroKey).2.1
      (List.replicate 32 1) rfl rfl).2,
    (initKey_validation _ zeroKey).2.2.1 (List.replicate 31 1) rfl (by decide),
    (initKey_validation _ zeroKey).2.2.1 (List.replicate 33 1) rfl (by decide),
    (initKey_validation failingProvider zeroKey).2.2.2 _ rfl⟩

/-- C7 as stated fails. A provider that returns 32 zero bytes makes `initKey` succeed and
`Encrypt` seal under the all-zero key, yet the key state is still all zero: a later call
with a provider that returns 32 bytes `0x01` replaces the key, and what was sealed before
is no longer decrypted. -/
theorem key_replaced_after_zero_key :
    initKey (fixedProvider (List.replicate 32 0)) zeroKey = (none, zeroKey) ∧
    Encrypt (fixedProvider (List.replicate 32 0)) countingReader zeroKey hello
      = (.ok zeroSealed, zeroKey) ∧
    (Encrypt (fixedProvider (List.replicate 32 1)) countingReader zeroKey hello).2 = onesKey ∧
    Decrypt (fixedProvider (List.replicate 32 1)) zeroKey zeroSealed
      = (.error cipher.errOpen, onesKey) ∧
    onesKey ≠ zeroKey :=
  ⟨by decide, Encrypt_zero_key, by decide, Decrypt_after_key_change, by decide⟩

/-- C7, as the code has it. Once `key` is not all zero, every call of `Encrypt` or
`Decrypt`, for every input and whatever the secret provider would answer, leaves `key`
unchanged, and everything `Encrypt` sealed under it is decrypted by any later `Decrypt`. -/
theorem key_immutable_once_nonzero (key : Key) (hz : IsZero key = false) :
    (∀ (G : SecretProvider) (r : io.Reader) (p : List Byte), (Encrypt G r key p).2 = key) ∧
    (∀ (G : SecretProvider) (c : List Byte), (Decrypt G key c).2 = key) ∧
    (∀ (G : SecretProvider) (r : io.Reader) (p c : List Byte) (k : Key),
      Encrypt G r key p = (.ok c, k) →
        k = key ∧ ∀ G' : SecretProvider, Decrypt G' key c = (.ok p, key)) := by
  refine ⟨?_, ?_, ?_⟩
  · intro G r p; rw [Encrypt_snd, ensureKey_nonzero G key hz]
  · intro G c; rw [Decrypt_snd, ensureKey_nonzero G key hz]
  · intro G r p c k h
    have hk : k = key := by
      have := Encrypt_snd G r key p
      rw [h, ensureKey_nonzero G key hz] at this
      exact this
    subst hk
    obtain ⟨_, nonce, _, hs⟩ := Encrypt_ok G r k k p c h
    exact ⟨rfl, fun G' => Decrypt_sealed G' k k nonce p c (ensureKey_nonzero G' k hz)
      (hs _ _ (newCipher_ok k) rfl)⟩

/-- Witness of C7 as amended: the key of 32 bytes `0x01`. -/
theorem key_immutable_once_nonzero_witness :
    IsZero onesKey = false ∧
    (Encrypt (fixedProvider (List.replicate 32 0)) countingReader onesKey hello).2 = onesKey ∧
    (Decrypt (fixedProvider (List.replicate 32 0)) onesKey helloSealed).2 = onesKey ∧
    Decrypt (fixedProvider (List.replicate 32 0)) onesKey helloSealed = (.ok hello, onesKey) :=
  ⟨by decide, (key_immutable_once_nonzero onesKey (by decide)).1 _ _ _,
    (key_immutable_once_nonzero onesKey (by decide)).2.1 _ _,
    ((key_immutable_once_nonzero onesKey (by decide)).2.2 _ _ _ _ _ Encrypt_hello).2 _⟩

/-- C8. A failed initialization is propagated: while `key` is all zero and the provider
fails, or returns something that is not 32 bytes long, `Encrypt` and `Decrypt` return
that error and nothing else, whatever the input and the random source, and `key` stays
as it was. -/
theorem failed_init_is_propagated (G : SecretProvider) (key : Key) (e : Error)
    (hz : IsZero key = true)
    (hfail : G "AES_KEY" = .error e ∨
      ∃ b, G "AES_KEY" = .ok b ∧ b.length ≠ 32 ∧ e = "key is not 32 bytes") :
    initKey G key = (some e, key) ∧
    (∀ (r : io.Reader) (p : List Byte), Encrypt G r key p = (.error e, key)) ∧
    (∀ c : List Byte, Decrypt G key c = (.error e, key)) := by
  have hi : initKey G key = (some e, key) := by
    rcases hfail with he | ⟨b, hb, hl, he⟩
    · exact initKey_error G key e he
    · rw [he]; exact initKey_wrong_length G key b hb hl
  have hk : ensureKey G key = (some e, key) := by rw [ensureKey_zero G key hz, hi]
  exact ⟨hi, fun r p => Encrypt_fail G r key key p e hk, fun c => Decrypt_fail G key key c e hk⟩

/-- Witness of C8: a failing provider and a provider with a 31-byte secret. -/
theorem failed_init_is_propagated_witness :
    IsZero zeroKey = true ∧
    Encrypt failingProvider countingReader zeroKey hello
      = (.error "secret not found", zeroKey) ∧
    Decrypt failingProvider zeroKey helloSealed = (.error "secret not found", zeroKey) ∧
    Encrypt (fixedProvider (List.replicate 31 1)) countingReader zeroKey hello
      = (.error "key is not 32 bytes", zeroKey) ∧
    Decrypt (fixedProvider (List.replicate 31 1)) zeroKey helloSealed
      = (.error "key is not 32 bytes", zeroKey) :=
  ⟨by decide,
    (failed_init_is_propagated failingProvider zeroKey _ (by decide) (Or.inl rfl)).2.1 _ _,
    (failed_init_is_propagated failingProvider zeroKey _ (by decide) (Or.inl rfl)).2.2 _,
    (failed_init_is_propagated (fixedProvider (List.replicate 31 1)) zeroKey _ (by decide)
      (Or.inr ⟨_, rfl, by decide, rfl⟩)).2.1 _ _,
    (failed_init_is_propagated (fixedProvider (List.replicate 31 1)) zeroKey _ (by decide)
      (Or.inr ⟨_, rfl, by decide, rfl⟩)).2.2 _⟩

/-- C9. Zero-key sentinel: when the provider returns 32 zero bytes, `initKey` succeeds and
`key` is all zero, which the guard takes for uninitialized: a call of `Encrypt` or
`Decrypt` with that provider leaves `key` all zero, so every later call asks the provider
again; a later call fails with the provider's error when the provider then fails, and
sets `key` to whatever 32 bytes the provider then returns. -/
theorem zero_key_sentinel (G : SecretProvider) (key : Key) (b : List Byte)
    (hb : G "AES_KEY" = .ok b) (hl : b.length = 32) (h0 : ∀ x ∈ b, x = 0) :
    initKey G key = (none, zeroKey) ∧ IsZero zeroKey = true ∧
    (∀ (r : io.Reader) (p : List Byte), (Encrypt G r zeroKey p).2 = zeroKey) ∧
    (∀ c : List Byte, (Decrypt G zeroKey c).2 = zeroKey) ∧
    (∀ (G' : SecretProvider) (e : Error), G' "AES_KEY" = .error e →
      (∀ (r : io.Reader) (p : List Byte), Encrypt G' r zeroKey p = (.error e, zeroKey)) ∧
      ∀ c : List Byte, Decrypt G' zeroKey c = (.error e, zeroKey)) ∧
    (∀ (G' : SecretProvider) (b' : List Byte), G' "AES_KEY" = .ok b' → b'.length = 32 →
      (∀ (r : io.Reader) (p : List Byte), (Encrypt G' r zeroKey p).2.val = b') ∧
      ∀ c : List Byte, (Decrypt G' zeroKey c).2.val = b') := by
  have hzero : IsZero zeroKey = true := by decide
  have hinit : ∀ key' : Key, initKey G key' = (none, zeroKey) := by
    intro key'; rw [initKey_ok G key' b hb hl, zero_bytes_eq b hl h0]
  have hnew : ∀ (G' : SecretProvider) (b' : List Byte) (hb' : G' "AES_KEY" = .ok b')
      (hl' : b'.length = 32), ensureKey G' zeroKey = (none, ⟨b', hl'⟩) := by
    intro G' b' hb' hl'
    rw [ensureKey_zero G' zeroKey hzero, initKey_ok G' zeroKey b' hb' hl']
  have hk : ensureKey G zeroKey = (none, zeroKey) := by
    rw [ensureKey_zero G zeroKey hzero]; exact hinit zeroKey
  refine ⟨hinit key, hzero, ?_, ?_, ?_, ?_⟩
  · intro r p; rw [Encrypt_snd, hk]
  · intro c; rw [Decrypt_snd, hk]
  · intro G' e he
    have hk' : ensureKey G' zeroKey = (some e, zeroKey) := by
      rw [ensureKey_zero G' zeroKey hzero, initKey_error G' zeroKey e he]
    exact ⟨fun r p => Encrypt_fail G' r zeroKey zeroKey p e hk',
      fun c => Decrypt_fail G' zeroKey zeroKey c e hk'⟩
  · intro G' b' hb' hl'
    exact ⟨fun r p => by rw [Encrypt_snd, hnew G' b' hb' hl'],
      fun c => by rw [Decrypt_snd, hnew G' b' hb' hl']⟩

/-- Witness of C9: a provider that returns 32 zero bytes, then one that fails and one
that returns 32 bytes `0x01`. -/
theorem zero_key_sentinel_witness :
    initKey (fixedProvider (List.replicate 32 0)) onesKey = (none, zeroKey) ∧
    (Encrypt (fixedProvider (List.replicate 32 0)) countingReader zeroKey hello).2 = zeroKey ∧
    Decrypt failingProvider zeroKey helloSealed = (.error "secret not found", zeroKey) ∧
    (Decrypt (fixedProvider (List.replicate 32 1)) zeroKey helloSealed).2.val
      = List.replicate 32 1 :=
  ⟨(zero_key_sentinel (fixedProvider (List.replicate 32 0)) onesKey _ rfl (by decide)
      (fun _ hx => List.eq_of_mem_replicate hx)).1,
    (zero_key_sentinel (fixedProvider (List.replicate 32 0)) onesKey _ rfl (by decide)
      (fun _ hx => List.eq_of_mem_replicate hx)).2.2.1 _ _,
    ((zero_key_sentinel (fixedProvider (List.replicate 32 0)) onesKey _ rfl (by decide)
      (fun _ hx => List.eq_of_mem_replicate hx)).2.2.2.2.1 failingProvider _ rfl).2 _,
    ((zero_key_sentinel (fixedProvider (List.replicate 32 0)) onesKey _ rfl (by decide)
      (fun _ hx => List.eq_of_mem_replicate hx)).2.2.2.2.2
        (fixedProvider (List.replicate 32 1)) _ rfl (by decide)).2 _⟩

/-- C10. With an initialized key, that is whenever the key guard lets the call through with
a key `k` (a `key` that is not all zero does, with `k = key`), `Decrypt` fails on every
input shorter than `12 + 16 = 28` bytes: with "malformed ciphertext" when the input is
shorter than 12 bytes, and with the authentication error of `Open` when it has 12 to 27
bytes. "malformed ciphertext" is returned exactly for the inputs shorter than 12 bytes,
and no output of `Encrypt` is shorter than 28 bytes. -/
theorem Decrypt_below_minimum (G : SecretProvider) (key k : Key) (c : List Byte)
    (hk : ensureKey G key = (none, k)) :
    (c.length < 28 → ∃ e, Decrypt G key c = (.error e, k)) ∧
    (c.length < 12 → Decrypt G key c = (.error "malformed ciphertext", k)) ∧
    (12 ≤ c.length → c.length < 28 → Decrypt G key c = (.error cipher.errOpen, k)) ∧
    ((Decrypt G key c).1 = .error "malformed ciphertext" ↔ c.length < 12) ∧
    cipher.errOpen ≠ "malformed ciphertext" ∧
    (∀ (r : io.Reader) (p c' : List Byte) (k' : Key),
      Encrypt G r key p = (.ok c', k') → 28 ≤ c'.length) := by
  have hd := Decrypt_run G key k c _ _ hk (newCipher_ok k) rfl
  have hshort : c.length < 12 → Decrypt G key c = (.error "malformed ciphertext", k) := by
    intro h; rw [hd, if_pos h]
  have hmid : 12 ≤ c.length → c.length < 28 →
      Decrypt G key c = (.error cipher.errOpen, k) := by
    intro h1 h2
    rw [hd, if_neg (by omega), cipher.Open_short _ _ _ _ _ (by simp; omega) (by simp; omega)]
  refine ⟨?_, hshort, hmid, ⟨?_, ?_⟩, by decide, ?_⟩
  · intro h
    by_cases h12 : c.length < 12
    · exact ⟨_, hshort h12⟩
    · exact ⟨_, hmid (by omega) h⟩
  · intro h
    by_contra h12
    rw [hd, if_neg h12] at h
    rcases cipher.Open_cases _ [] (c.take 12) (c.drop 12) [] (by simp; omega) with ho | ⟨q, ho⟩
    · rw [ho] at h
      have hne : cipher.errOpen ≠ "malformed ciphertext" := by decide
      exact hne (Result.error.inj h)
    · rw [ho] at h; exact absurd h (by simp)
  · intro h; rw [hshort h]
  · intro r p c' k' h
    have := Encrypt_length G r key k' p c' h
    omega

/-- Witness of C10: inputs of 5 and of 20 bytes under the key of 32 bytes `0x01`. -/
theorem Decrypt_below_minimum_witness :
    ensureKey failingProvider onesKey = (none, onesKey) ∧
    Decrypt failingProvider onesKey fiveBytes = (.error "malformed ciphertext", onesKey) ∧
    Decrypt failingProvider onesKey (helloSealed.take 20)
      = (.error cipher.errOpen, onesKey) :=
  ⟨by decide,
    (Decrypt_below_minimum failingProvider onesKey onesKey fiveBytes (by decide)).2.1
      (by decide),
    (Decrypt_below_minimum failingProvider onesKey onesKey (helloSealed.take 20)
      (by decide)).2.2.1 (by decide) (by decide)⟩

end crypto
